import Mathlib

/-!
Shallow embedding of the network message buffer layer of the canary server
(src/server/network/message/networkmessage.hpp and outputmessage.hpp).

Machine integers are modelled as Nat: a fixed-width value of byte width
w is a Nat below 2^(8*w), serialized little-endian exactly as the
std.bit_cast to a byte array does on the little-endian targets the
protocol assumes.  The fixed-size byte array becomes a Nat list whose
length is the buffer capacity.  Methods become pure state transformers.
-/

namespace Canary

/-- Headers: 2 bytes for unencrypted message size, 4 bytes for checksum,
1 byte for padding message size (networkmessage.hpp line 36). -/
def INITIAL_BUFFER_POSITION : Nat := 7

/-- Bookkeeping state of a message buffer (networkmessage.hpp lines 262-266),
with the same member initializers. -/
structure NetworkMessageInfo where
  length : Nat := 0
  position : Nat := INITIAL_BUFFER_POSITION
  overrun : Bool := false
deriving DecidableEq

/-- State of a NetworkMessage: bookkeeping info plus the fixed-size byte
array; the list length plays the role of buffer.size(). -/
structure NetworkMessage where
  info : NetworkMessageInfo := {}
  buffer : List Nat
deriving DecidableEq

/-- Little-endian byte decomposition of a value of byte width w, as
std.bit_cast to an unsigned char array produces on a little-endian target. -/
def toBytesLE : Nat → Nat → List Nat
  | 0, _ => []
  | w + 1, v => v % 256 :: toBytesLE w (v / 256)

/-- Little-endian recomposition of a byte list into a value. -/
def fromBytesLE : List Nat → Nat
  | [] => 0
  | b :: rest => b % 256 + 256 * fromBytesLE rest

/-- Overwrite of the buffer at pos with the given bytes, one set per byte,
as std.ranges.copy into buffer.begin() + pos does. -/
def writeBytes : List Nat → Nat → List Nat → List Nat
  | buf, _, [] => buf
  | buf, pos, b :: rest => writeBytes (buf.set pos b) (pos + 1) rest

/-- Read of w consecutive bytes of the buffer starting at pos, as the
copy into the temporary array of get does. -/
def readBytes (buf : List Nat) : Nat → Nat → List Nat
  | _, 0 => []
  | pos, w + 1 => buf.getD pos 0 :: readBytes buf (pos + 1) w

/-- Modelled from the spec: the body of NetworkMessage::canRead is not in
the sources given (only its declaration, networkmessage.hpp line 257); the
spec says each read first checks capacity minus position is at least the
required size. -/
def canRead (m : NetworkMessage) (size : Nat) : Bool :=
  decide (size ≤ m.buffer.length - m.info.position)

/-- Modelled from the spec: the body of NetworkMessage::canAdd is not in
the sources given (only its declaration, networkmessage.hpp line 255); the
spec says each write checks capacity minus position is at least the
required size. -/
def canAdd (m : NetworkMessage) (size : Nat) : Bool :=
  decide (size ≤ m.buffer.length - m.info.position)

/-- NetworkMessage::get for a trivially copyable type of byte width w
(networkmessage.hpp lines 76-93): on canRead failure return the
zero value and set overrun (the overrun write lives in canRead in the
implementation; it is folded into the failure branch here), otherwise
bit_cast the w bytes at position and advance position. -/
def NetworkMessage.get (m : NetworkMessage) (w : Nat) : Nat × NetworkMessage :=
  if canRead m w then
    (fromBytesLE (readBytes m.buffer m.info.position w),
      { m with info := { m.info with position := m.info.position + w } })
  else
    (0, { m with info := { m.info with overrun := true } })

/-- NetworkMessage::add for a trivially copyable value of byte width w
(networkmessage.hpp lines 131-164): the three guards in source order, then
the byte copy at position and the position and length bumps. -/
def NetworkMessage.add (m : NetworkMessage) (w v : Nat) : NetworkMessage :=
  if ¬ canAdd m w then m
  else if m.info.position + w > m.buffer.length then m
  else if w > m.buffer.length - m.info.position then m
  else
    { m with
      buffer := writeBytes m.buffer m.info.position (toBytesLE w v)
      info := { m.info with
        position := m.info.position + w
        length := m.info.length + w } }

/-- NetworkMessage::reset (networkmessage.hpp lines 48-50): info = {}
restores the member initializers of NetworkMessageInfo and touches nothing
else. -/
def NetworkMessage.reset (m : NetworkMessage) : NetworkMessage :=
  { m with info := {} }

/-- Modelled from the spec: the body of NetworkMessage::addPaddingBytes is
not in the sources given (only its declaration, networkmessage.hpp
line 179); the spec says padding filler bytes are appended to the payload
under the usual write capacity check, which grows length by n.  The filler
value is a fixed byte the spec leaves open. -/
def NetworkMessage.addPaddingBytes (m : NetworkMessage) (n : Nat) : NetworkMessage :=
  if ¬ canAdd m n then m
  else
    { m with
      buffer := writeBytes m.buffer m.info.position (List.replicate n 0x33)
      info := { m.info with length := m.info.length + n } }

/-- A freshly constructed NetworkMessage of the given capacity: default
info, zero-initialized array. -/
def NetworkMessage.initial (cap : Nat) : NetworkMessage :=
  { info := {}, buffer := List.replicate cap 0 }

/-- OutputMessage (outputmessage.hpp lines 23-125): the inherited
NetworkMessage state plus the backward-growing header cursor, initialized
to the reserved-prefix offset. -/
structure OutputMessage where
  base : NetworkMessage
  outputBufferStart : Nat := INITIAL_BUFFER_POSITION
deriving DecidableEq

/-- A freshly constructed OutputMessage of the given capacity. -/
def OutputMessage.initial (cap : Nat) : OutputMessage :=
  { base := NetworkMessage.initial cap }

/-- OutputMessage::add_header for a header value of byte width w
(outputmessage.hpp lines 100-122): reject when the remaining reserved
prefix is smaller than the header, else move outputBufferStart back by w,
copy the header bytes there and grow length by w. -/
def OutputMessage.add_header (m : OutputMessage) (w v : Nat) : OutputMessage :=
  if m.outputBufferStart < w then m
  else
    { m with
      outputBufferStart := m.outputBufferStart - w
      base := { m.base with
        buffer := writeBytes m.base.buffer (m.outputBufferStart - w) (toBytesLE w v)
        info := { m.base.info with length := m.base.info.length + w } } }

/-- Payload writes on an OutputMessage go through the inherited
NetworkMessage::add. -/
def OutputMessage.add (m : OutputMessage) (w v : Nat) : OutputMessage :=
  { m with base := m.base.add w v }

/-- OutputMessage::writePaddingAmount (outputmessage.hpp lines 44-48):
paddingAmount = 8 - length % 8 - 1 (a uint8 in range, no wrap), append
that many filler bytes, then prepend the one-byte padding-count header. -/
def OutputMessage.writePaddingAmount (m : OutputMessage) : OutputMessage :=
  let paddingAmount := 8 - m.base.info.length % 8 - 1
  let m1 : OutputMessage := { m with base := m.base.addPaddingBytes paddingAmount }
  m1.add_header 1 paddingAmount

/-- OutputMessage::writeMessageLength (outputmessage.hpp lines 53-55):
prepend the two-byte header (length - 4) / 8.  In the source length is a
uint16, the subtraction is done in int and the quotient truncates toward
zero before the cast back to uint16, which for every uint16 length agrees
with truncated Nat subtraction followed by Nat division. -/
def OutputMessage.writeMessageLength (m : OutputMessage) : OutputMessage :=
  m.add_header 2 ((m.base.info.length - 4) / 8)

/-- OutputMessage::addCryptoHeader (outputmessage.hpp lines 63-69):
prepend the four-byte checksum header only when addChecksum, then always
writeMessageLength. -/
def OutputMessage.addCryptoHeader (m : OutputMessage) (addChecksum : Bool) (checksum : Nat) : OutputMessage :=
  (if addChecksum then m.add_header 4 checksum else m).writeMessageLength

/-- OutputMessage::append of a NetworkMessage (outputmessage.hpp
lines 76-83): copy length bytes of the other message starting at its
reserved-prefix offset into this buffer at position, then grow length and
position by that amount; no capacity check is performed. -/
def OutputMessage.append (m : OutputMessage) (msg : NetworkMessage) : OutputMessage :=
  let msgLen := msg.info.length
  { m with base := { m.base with
      buffer := writeBytes m.base.buffer m.base.info.position
        (readBytes msg.buffer INITIAL_BUFFER_POSITION msgLen)
      info := { m.base.info with
        length := m.base.info.length + msgLen
        position := m.base.info.position + msgLen } } }

/-! Helper lemmas about the byte-level operations. -/

theorem length_writeBytes (bs : List Nat) : ∀ (buf : List Nat) (pos : Nat),
    (writeBytes buf pos bs).length = buf.length := by
  induction bs with
  | nil => intro buf pos; rfl
  | cons b rest ih =>
      intro buf pos
      simp only [writeBytes, ih, List.length_set]

theorem length_toBytesLE (w : Nat) : ∀ v, (toBytesLE w v).length = w := by
  induction w with
  | zero => intro v; rfl
  | succ w ih => intro v; simp only [toBytesLE, List.length_cons, ih]

theorem getD_writeBytes_lt (bs : List Nat) : ∀ (buf : List Nat) (pos i : Nat),
    i < pos → (writeBytes buf pos bs).getD i 0 = buf.getD i 0 := by
  induction bs with
  | nil => intro buf pos i _; rfl
  | cons b rest ih =>
      intro buf pos i hi
      have h1 : i < pos + 1 := Nat.lt_succ_of_lt hi
      simp only [writeBytes, ih (buf.set pos b) (pos + 1) i h1]
      simp [List.getD_eq_getElem?_getD, List.getElem?_set_ne (Nat.ne_of_gt hi)]

theorem getD_writeBytes_ge (bs : List Nat) : ∀ (buf : List Nat) (pos i : Nat),
    pos + bs.length ≤ i → (writeBytes buf pos bs).getD i 0 = buf.getD i 0 := by
  induction bs with
  | nil => intro buf pos i _; rfl
  | cons b rest ih =>
      intro buf pos i hi
      simp only [List.length_cons] at hi
      have h1 : (pos + 1) + rest.length ≤ i := by omega
      simp only [writeBytes, ih (buf.set pos b) (pos + 1) i h1]
      have hne : pos ≠ i := by omega
      simp [List.getD_eq_getElem?_getD, List.getElem?_set_ne hne]

theorem readBytes_writeBytes (bs : List Nat) : ∀ (buf : List Nat) (pos : Nat),
    pos + bs.length ≤ buf.length →
    readBytes (writeBytes buf pos bs) pos bs.length = bs := by
  induction bs with
  | nil => intro buf pos _; rfl
  | cons b rest ih =>
      intro buf pos h
      simp only [List.length_cons] at h
      have hpos : pos < buf.length := by omega
      have hlen : (pos + 1) + rest.length ≤ (buf.set pos b).length := by
        simp only [List.length_set]; omega
      simp only [writeBytes, List.length_cons, readBytes, List.cons.injEq]
      constructor
      · rw [getD_writeBytes_lt rest (buf.set pos b) (pos + 1) pos (Nat.lt_succ_self pos)]
        have hpos2 : pos < (buf : List Nat).length := hpos
        simp [List.getD_eq_getElem?_getD, List.getElem?_set_eq_of_lt b hpos2]
      · exact ih (buf.set pos b) (pos + 1) hlen

theorem fromBytesLE_toBytesLE (w : Nat) : ∀ v, fromBytesLE (toBytesLE w v) = v % 2 ^ (8 * w) := by
  induction w with
  | zero => intro v; simp [toBytesLE, fromBytesLE, Nat.mul_zero, Nat.pow_zero, Nat.mod_one]
  | succ w ih =>
      intro v
      have hpow : 2 ^ (8 * (w + 1)) = 256 * 2 ^ (8 * w) := by
        rw [Nat.mul_succ, Nat.pow_add, Nat.mul_comm]
      rw [toBytesLE, fromBytesLE, ih (v / 256), hpow, Nat.mod_mul, Nat.mod_mod_of_dvd v (dvd_refl 256)]

theorem getD_readBytes (w : Nat) : ∀ (buf : List Nat) (pos k : Nat), k < w →
    (readBytes buf pos w).getD k 0 = buf.getD (pos + k) 0 := by
  induction w with
  | zero => intro buf pos k hk; omega
  | succ w ih =>
      intro buf pos k hk
      cases k with
      | zero => simp [readBytes]
      | succ k =>
          have hk2 : k < w := by omega
          simp only [readBytes, List.getD_cons_succ, ih buf (pos + 1) k hk2]
          have : pos + 1 + k = pos + (k + 1) := by omega
          rw [this]

theorem getD_writeBytes_in (bs : List Nat) : ∀ (buf : List Nat) (pos k : Nat),
    k < bs.length → pos + k < buf.length →
    (writeBytes buf pos bs).getD (pos + k) 0 = bs.getD k 0 := by
  induction bs with
  | nil => intro buf pos k hk _; simp at hk
  | cons b rest ih =>
      intro buf pos k hk hin
      cases k with
      | zero =>
          simp only [Nat.add_zero]
          rw [writeBytes, getD_writeBytes_lt rest (buf.set pos b) (pos + 1) pos (Nat.lt_succ_self pos)]
          have hpos : pos < buf.length := by omega
          simp [List.getD_eq_getElem?_getD, List.getElem?_set_eq_of_lt b hpos]
      | succ k =>
          simp only [List.length_cons] at hk
          have hk2 : k < rest.length := by omega
          have hin2 : (pos + 1) + k < (buf.set pos b).length := by
            simp only [List.length_set]; omega
          have harith : pos + (k + 1) = (pos + 1) + k := by omega
          rw [writeBytes, harith, ih (buf.set pos b) (pos + 1) k hk2 hin2]
          simp

theorem length_readBytes (w : Nat) : ∀ (buf : List Nat) (pos : Nat),
    (readBytes buf pos w).length = w := by
  induction w with
  | zero => intro buf pos; rfl
  | succ w ih => intro buf pos; simp only [readBytes, List.length_cons, ih]

theorem readBytes_ext (w : Nat) : ∀ (buf1 buf2 : List Nat) (pos : Nat),
    (∀ j, pos ≤ j → j < pos + w → buf1.getD j 0 = buf2.getD j 0) →
    readBytes buf1 pos w = readBytes buf2 pos w := by
  induction w with
  | zero => intro _ _ _ _; rfl
  | succ w ih =>
      intro buf1 buf2 pos h
      simp only [readBytes, List.cons.injEq]
      exact ⟨h pos (Nat.le_refl pos) (by omega),
        ih buf1 buf2 (pos + 1) (fun j hj1 hj2 => h j (by omega) (by omega))⟩

theorem add_header_effect (m : OutputMessage) (w v : Nat) (h : w ≤ m.outputBufferStart) :
    m.add_header w v =
      { base := { m.base with
          buffer := writeBytes m.base.buffer (m.outputBufferStart - w) (toBytesLE w v)
          info := { m.base.info with length := m.base.info.length + w } }
        outputBufferStart := m.outputBufferStart - w } := by
  simp [OutputMessage.add_header, Nat.not_lt.mpr h]

/-! Claim theorems. -/

/-- Claim C1: the generic read of a w-byte fixed-width value from a
NetworkMessage with fewer than w readable bytes remaining returns the
zero value, sets the overrun flag, leaves the read position where it was
(so it never advances past the buffer edge) and touches no byte of the
buffer, so no out-of-range access happens. -/
theorem get_underflow_zero_overrun (m : NetworkMessage) (w : Nat)
    (h : m.buffer.length - m.info.position < w) :
    (m.get w).1 = 0 ∧
    (m.get w).2.info.overrun = true ∧
    (m.get w).2.info.position = m.info.position ∧
    (m.get w).2.buffer = m.buffer := by
  have hc : canRead m w = false := by
    simp only [canRead, decide_eq_false_iff_not]
    omega
  simp [NetworkMessage.get, hc]

/-- Witness for C1 at a concrete message: capacity 8, position 7, one
readable byte, reading a 4-byte value. -/
theorem get_underflow_zero_overrun_ping :
    (NetworkMessage.initial 8).buffer.length - (NetworkMessage.initial 8).info.position < 4 ∧
    (((NetworkMessage.initial 8).get 4).1 = 0 ∧
     ((NetworkMessage.initial 8).get 4).2.info.overrun = true ∧
     ((NetworkMessage.initial 8).get 4).2.info.position = (NetworkMessage.initial 8).info.position ∧
     ((NetworkMessage.initial 8).get 4).2.buffer = (NetworkMessage.initial 8).buffer) :=
  ⟨by decide, get_underflow_zero_overrun (NetworkMessage.initial 8) 4 (by decide)⟩

/-- Claim C2: a generic write of a w-byte value whose size exceeds the
remaining capacity at the write position mutates nothing at all: the
resulting message equals the original one, byte array, length, position
and overrun flag included. -/
theorem add_overflow_no_mutation (m : NetworkMessage) (w v : Nat)
    (h : m.buffer.length - m.info.position < w) :
    m.add w v = m := by
  have hc : canAdd m w = false := by
    simp only [canAdd, decide_eq_false_iff_not]
    omega
  simp [NetworkMessage.add, hc]

/-- Witness for C2 at a concrete message: capacity 8, position 7,
writing a 4-byte value. -/
theorem add_overflow_no_mutation_concrete :
    (NetworkMessage.initial 8).buffer.length - (NetworkMessage.initial 8).info.position < 4 ∧
    (NetworkMessage.initial 8).add 4 0x12345678 = NetworkMessage.initial 8 :=
  ⟨by decide, add_overflow_no_mutation (NetworkMessage.initial 8) 4 0x12345678 (by decide)⟩

/-- Claim C6: the header cursor outputBufferStart starts at the
reserved-prefix offset 7, a prepend of a w-byte header with fewer than w
bytes of reserved prefix remaining is rejected leaving the whole message
(cursor included) unchanged, and an accepted prepend decrements the
cursor by exactly w, which by the guard never takes it below 0. -/
theorem outputBufferStart_cursor (cap w v : Nat) (m : OutputMessage) :
    (OutputMessage.initial cap).outputBufferStart = INITIAL_BUFFER_POSITION ∧
    (m.outputBufferStart < w → m.add_header w v = m) ∧
    (w ≤ m.outputBufferStart →
      (m.add_header w v).outputBufferStart = m.outputBufferStart - w) := by
  refine ⟨rfl, ?_, ?_⟩
  · intro h
    simp [OutputMessage.add_header, h]
  · intro h
    simp [OutputMessage.add_header, Nat.not_lt.mpr h]

/-- Witness for C6: a fresh message of capacity 16 rejects an 8-byte
header prepend unchanged and accepts a 2-byte one, moving the cursor from
7 to 5. -/
theorem outputBufferStart_cursor_concrete :
    (OutputMessage.initial 16).outputBufferStart = INITIAL_BUFFER_POSITION ∧
    (OutputMessage.initial 16).add_header 8 0 = OutputMessage.initial 16 ∧
    ((OutputMessage.initial 16).add_header 2 3).outputBufferStart = 7 - 2 :=
  ⟨(outputBufferStart_cursor 16 8 0 (OutputMessage.initial 16)).1,
   (outputBufferStart_cursor 16 8 0 (OutputMessage.initial 16)).2.1 (by decide),
   (outputBufferStart_cursor 16 2 3 (OutputMessage.initial 16)).2.2 (by decide)⟩

/-- Claim C9: writing the two-byte value 0x0102 into a freshly reset
buffer stores 0x02 at offset 7 and 0x01 at offset 8 (little-endian) and
leaves length equal to 2. -/
theorem add_0x0102_scenario :
    ((NetworkMessage.initial 32).add 2 0x0102).buffer.getD 7 0 = 0x02 ∧
    ((NetworkMessage.initial 32).add 2 0x0102).buffer.getD 8 0 = 0x01 ∧
    ((NetworkMessage.initial 32).add 2 0x0102).info.length = 2 := by
  decide

/-- Claim C10: reset restores only the bookkeeping state (length 0,
position back to the reserved-prefix offset 7, overrun cleared) and
leaves every byte of the underlying array untouched. -/
theorem reset_keeps_buffer (m : NetworkMessage) :
    m.reset.info.length = 0 ∧
    m.reset.info.position = INITIAL_BUFFER_POSITION ∧
    m.reset.info.overrun = false ∧
    m.reset.buffer = m.buffer :=
  ⟨rfl, rfl, rfl, rfl⟩

/-- Claim C3: on a buffer with at least w bytes of remaining capacity,
writing a w-byte value v advances position and length by exactly w, and
reading a w-byte value back from the original position returns v
bit-for-bit. -/
theorem add_get_roundtrip (m : NetworkMessage) (w v : Nat)
    (hcap : m.info.position + w ≤ m.buffer.length) (hv : v < 2 ^ (8 * w)) :
    (m.add w v).info.position = m.info.position + w ∧
    (m.add w v).info.length = m.info.length + w ∧
    (NetworkMessage.get
      { m.add w v with
        info := { (m.add w v).info with position := m.info.position } } w).1 = v := by
  have hca : canAdd m w = true := by
    simp only [canAdd, decide_eq_true_eq]
    omega
  have h2 : ¬ (m.info.position + w > m.buffer.length) := by omega
  have h3 : ¬ (w > m.buffer.length - m.info.position) := by omega
  have hadd : m.add w v =
      { m with
        buffer := writeBytes m.buffer m.info.position (toBytesLE w v)
        info := { m.info with
          position := m.info.position + w
          length := m.info.length + w } } := by
    simp [NetworkMessage.add, hca, h2, h3]
  refine ⟨by rw [hadd], by rw [hadd], ?_⟩
  rw [hadd]
  have hlenw : (toBytesLE w v).length = w := length_toBytesLE w v
  have hblen : (writeBytes m.buffer m.info.position (toBytesLE w v)).length
      = m.buffer.length := length_writeBytes (toBytesLE w v) m.buffer m.info.position
  have hcr : canRead
      { info := { length := m.info.length + w, position := m.info.position
                  overrun := m.info.overrun }
        buffer := writeBytes m.buffer m.info.position (toBytesLE w v) } w = true := by
    simp only [canRead, decide_eq_true_eq, hblen]
    omega
  have hrw : readBytes (writeBytes m.buffer m.info.position (toBytesLE w v))
      m.info.position (toBytesLE w v).length = toBytesLE w v :=
    readBytes_writeBytes (toBytesLE w v) m.buffer m.info.position (by omega)
  rw [hlenw] at hrw
  simp only [NetworkMessage.get, hrw, fromBytesLE_toBytesLE, Nat.mod_eq_of_lt hv, hcr, if_true]

/-- Witness for C3: a fresh message of capacity 32 round-trips the
2-byte value 0x1234. -/
theorem add_get_roundtrip_concrete :
    (NetworkMessage.initial 32).info.position + 2 ≤ (NetworkMessage.initial 32).buffer.length ∧
    0x1234 < 2 ^ (8 * 2) ∧
    (((NetworkMessage.initial 32).add 2 0x1234).info.position
       = (NetworkMessage.initial 32).info.position + 2 ∧
     ((NetworkMessage.initial 32).add 2 0x1234).info.length
       = (NetworkMessage.initial 32).info.length + 2 ∧
     (NetworkMessage.get
       { (NetworkMessage.initial 32).add 2 0x1234 with
         info := { ((NetworkMessage.initial 32).add 2 0x1234).info with
           position := (NetworkMessage.initial 32).info.position } } 2).1 = 0x1234) :=
  ⟨by decide, by decide,
   add_get_roundtrip (NetworkMessage.initial 32) 2 0x1234 (by decide) (by decide)⟩

/-- Claim C4: the padding amount computed by writePaddingAmount equals
8 - (length mod 8) - 1 and satisfies (1 + padding + length) mod 8 = 0;
with room for the filler bytes and for the one-byte padding-count header,
writePaddingAmount grows length by padding + 1, to a multiple of 8. -/
theorem writePaddingAmount_aligns (m : OutputMessage)
    (hcap : 8 - m.base.info.length % 8 - 1
      ≤ m.base.buffer.length - m.base.info.position)
    (hhdr : 1 ≤ m.outputBufferStart) :
    (1 + (8 - m.base.info.length % 8 - 1) + m.base.info.length) % 8 = 0 ∧
    m.writePaddingAmount.base.info.length
      = m.base.info.length + (8 - m.base.info.length % 8 - 1) + 1 ∧
    m.writePaddingAmount.base.info.length % 8 = 0 := by
  have hP : canAdd m.base (8 - m.base.info.length % 8 - 1) = true := by
    simp only [canAdd, decide_eq_true_eq]
    omega
  have hlt : ¬ (m.outputBufferStart < 1) := by omega
  have h2 : m.writePaddingAmount.base.info.length
      = m.base.info.length + (8 - m.base.info.length % 8 - 1) + 1 := by
    simp [OutputMessage.writePaddingAmount, OutputMessage.add_header,
      NetworkMessage.addPaddingBytes, hP, hlt]
  exact ⟨by omega, h2, by omega⟩

/-- Witness for C4: an empty fresh message of capacity 32 gets padding
7 and final length 8. -/
theorem writePaddingAmount_aligns_concrete :
    (8 - (OutputMessage.initial 32).base.info.length % 8 - 1
      ≤ (OutputMessage.initial 32).base.buffer.length
        - (OutputMessage.initial 32).base.info.position) ∧
    1 ≤ (OutputMessage.initial 32).outputBufferStart ∧
    ((1 + (8 - (OutputMessage.initial 32).base.info.length % 8 - 1)
        + (OutputMessage.initial 32).base.info.length) % 8 = 0 ∧
     (OutputMessage.initial 32).writePaddingAmount.base.info.length
       = (OutputMessage.initial 32).base.info.length
         + (8 - (OutputMessage.initial 32).base.info.length % 8 - 1) + 1 ∧
     (OutputMessage.initial 32).writePaddingAmount.base.info.length % 8 = 0) :=
  ⟨by decide, by decide,
   writePaddingAmount_aligns (OutputMessage.initial 32) (by decide) (by decide)⟩

/-- Claim C7: appending a finalized message B to an OutputMessage A with
enough remaining capacity copies exactly B.length bytes taken from B
starting at the reserved-prefix offset 7 into A at its current position,
grows both the length and the position of A by exactly B.length, and
alters no byte of A below its prior position. -/
theorem append_frame_effect (A : OutputMessage) (B : NetworkMessage)
    (hcap : A.base.info.position + B.info.length ≤ A.base.buffer.length) :
    (A.append B).base.info.length = A.base.info.length + B.info.length ∧
    (A.append B).base.info.position = A.base.info.position + B.info.length ∧
    readBytes (A.append B).base.buffer 0 A.base.info.position
      = readBytes A.base.buffer 0 A.base.info.position ∧
    readBytes (A.append B).base.buffer A.base.info.position B.info.length
      = readBytes B.buffer INITIAL_BUFFER_POSITION B.info.length := by
  have hsrc : (readBytes B.buffer INITIAL_BUFFER_POSITION B.info.length).length
      = B.info.length := length_readBytes B.info.length B.buffer INITIAL_BUFFER_POSITION
  refine ⟨rfl, rfl, ?_, ?_⟩
  · apply readBytes_ext
    intro j _ hj2
    exact getD_writeBytes_lt _ A.base.buffer A.base.info.position j (by omega)
  · have h := readBytes_writeBytes (readBytes B.buffer INITIAL_BUFFER_POSITION B.info.length)
      A.base.buffer A.base.info.position (by omega)
    rw [hsrc] at h
    exact h

/-- A small already-finalized two-byte source message used to witness the
append claim. -/
def twoByteSource : NetworkMessage :=
  { info := { length := 2, position := 9, overrun := false }
    buffer := [9, 9, 9, 9, 9, 9, 9, 0x41, 0x42, 0, 0, 0] }

/-- Witness for C7: the 2-byte finalized message appended to a fresh
message of capacity 32. -/
theorem append_frame_effect_concrete :
    (OutputMessage.initial 32).base.info.position + twoByteSource.info.length
      ≤ (OutputMessage.initial 32).base.buffer.length ∧
    (((OutputMessage.initial 32).append twoByteSource).base.info.length
       = (OutputMessage.initial 32).base.info.length + twoByteSource.info.length ∧
     ((OutputMessage.initial 32).append twoByteSource).base.info.position
       = (OutputMessage.initial 32).base.info.position + twoByteSource.info.length ∧
     readBytes ((OutputMessage.initial 32).append twoByteSource).base.buffer 0
         (OutputMessage.initial 32).base.info.position
       = readBytes (OutputMessage.initial 32).base.buffer 0
         (OutputMessage.initial 32).base.info.position ∧
     readBytes ((OutputMessage.initial 32).append twoByteSource).base.buffer
         (OutputMessage.initial 32).base.info.position twoByteSource.info.length
       = readBytes twoByteSource.buffer INITIAL_BUFFER_POSITION
         twoByteSource.info.length) :=
  ⟨by decide, append_frame_effect (OutputMessage.initial 32) twoByteSource (by decide)⟩

/-- Claim C5: addCryptoHeader prepends the 4-byte checksum header exactly
when addChecksum is true, and then always prepends the 2-byte header
holding (length - 4) / 8 computed from the length of the message at that
moment: without a checksum the cursor moves back only 2 and the header
encodes (original length - 4) / 8, the 4 subtracted unconditionally; with
a checksum the cursor moves back 6, the 4 checksum bytes sit right above
the 2 length bytes, and the length header encodes (length after the
checksum prepend - 4) / 8. -/
theorem addCryptoHeader_headers (m : OutputMessage) (c : Nat)
    (h6 : 6 ≤ m.outputBufferStart)
    (hs : m.outputBufferStart ≤ m.base.buffer.length) :
    ((m.addCryptoHeader false c).outputBufferStart = m.outputBufferStart - 2 ∧
     (m.addCryptoHeader false c).base.info.length = m.base.info.length + 2 ∧
     readBytes (m.addCryptoHeader false c).base.buffer (m.outputBufferStart - 2) 2
       = toBytesLE 2 ((m.base.info.length - 4) / 8)) ∧
    ((m.addCryptoHeader true c).outputBufferStart = m.outputBufferStart - 6 ∧
     (m.addCryptoHeader true c).base.info.length = m.base.info.length + 6 ∧
     (m.add_header 4 c).base.info.length = m.base.info.length + 4 ∧
     readBytes (m.addCryptoHeader true c).base.buffer (m.outputBufferStart - 4) 4
       = toBytesLE 4 c ∧
     readBytes (m.addCryptoHeader true c).base.buffer (m.outputBufferStart - 6) 2
       = toBytesLE 2 (((m.add_header 4 c).base.info.length - 4) / 8)) := by
  have hlen4 : ∀ x, (toBytesLE 4 x).length = 4 := length_toBytesLE 4
  have hlen2 : ∀ x, (toBytesLE 2 x).length = 2 := length_toBytesLE 2
  have h2 : 2 ≤ m.outputBufferStart := by omega
  have h4 : 4 ≤ m.outputBufferStart := by omega
  have hF : m.addCryptoHeader false c = m.add_header 2 ((m.base.info.length - 4) / 8) := by
    simp [OutputMessage.addCryptoHeader, OutputMessage.writeMessageLength]
  have hFe := add_header_effect m 2 ((m.base.info.length - 4) / 8) h2
  have hT1 := add_header_effect m 4 c h4
  have hT1len : (m.add_header 4 c).base.info.length = m.base.info.length + 4 := by
    rw [hT1]
  have hT1start : (m.add_header 4 c).outputBufferStart = m.outputBufferStart - 4 := by
    rw [hT1]
  have hT1buf : (m.add_header 4 c).base.buffer
      = writeBytes m.base.buffer (m.outputBufferStart - 4) (toBytesLE 4 c) := by
    rw [hT1]
  have h2T : 2 ≤ (m.add_header 4 c).outputBufferStart := by omega
  have hT : m.addCryptoHeader true c
      = (m.add_header 4 c).add_header 2 (((m.add_header 4 c).base.info.length - 4) / 8) := by
    simp [OutputMessage.addCryptoHeader, OutputMessage.writeMessageLength]
  have hTe := add_header_effect (m.add_header 4 c) 2
    (((m.add_header 4 c).base.info.length - 4) / 8) h2T
  have hsub : m.outputBufferStart - 4 - 2 = m.outputBufferStart - 6 := by omega
  have hinnerlen : (writeBytes m.base.buffer (m.outputBufferStart - 4) (toBytesLE 4 c)).length
      = m.base.buffer.length := length_writeBytes _ _ _
  refine ⟨⟨?_, ?_, ?_⟩, ?_, ?_, hT1len, ?_, ?_⟩
  · rw [hF, hFe]
  · rw [hF, hFe]
  · rw [hF, hFe]
    have h := readBytes_writeBytes (toBytesLE 2 ((m.base.info.length - 4) / 8))
      m.base.buffer (m.outputBufferStart - 2) (by rw [hlen2]; omega)
    rw [hlen2] at h
    exact h
  · rw [hT, hTe, hT1start, hsub]
  · rw [hT, hTe, hT1len]
  · rw [hT, hTe, hT1buf, hT1start, hsub]
    have hout : readBytes
        (writeBytes (writeBytes m.base.buffer (m.outputBufferStart - 4) (toBytesLE 4 c))
          (m.outputBufferStart - 6)
          (toBytesLE 2 (((m.add_header 4 c).base.info.length - 4) / 8)))
        (m.outputBufferStart - 4) 4
        = readBytes (writeBytes m.base.buffer (m.outputBufferStart - 4) (toBytesLE 4 c))
          (m.outputBufferStart - 4) 4 := by
      apply readBytes_ext
      intro j hj1 _
      exact getD_writeBytes_ge _ _ _ j (by rw [hlen2]; omega)
    rw [hout]
    have h := readBytes_writeBytes (toBytesLE 4 c) m.base.buffer
      (m.outputBufferStart - 4) (by rw [hlen4]; omega)
    rw [hlen4] at h
    exact h
  · rw [hT, hTe, hT1buf, hT1start, hsub]
    have h := readBytes_writeBytes
      (toBytesLE 2 (((m.add_header 4 c).base.info.length - 4) / 8))
      (writeBytes m.base.buffer (m.outputBufferStart - 4) (toBytesLE 4 c))
      (m.outputBufferStart - 6) (by rw [hlen2, hinnerlen]; omega)
    rw [hlen2] at h
    exact h

/-- Witness for C5: a message of capacity 32 whose padded body is 8 bytes
long, with checksum value 0xAABBCCDD. -/
theorem addCryptoHeader_headers_concrete :
    6 ≤ (OutputMessage.initial 32).outputBufferStart ∧
    (OutputMessage.initial 32).outputBufferStart
      ≤ (OutputMessage.initial 32).base.buffer.length ∧
    ((((OutputMessage.initial 32).addCryptoHeader false 0xAABBCCDD).outputBufferStart
        = (OutputMessage.initial 32).outputBufferStart - 2 ∧
      ((OutputMessage.initial 32).addCryptoHeader false 0xAABBCCDD).base.info.length
        = (OutputMessage.initial 32).base.info.length + 2 ∧
      readBytes ((OutputMessage.initial 32).addCryptoHeader false 0xAABBCCDD).base.buffer
          ((OutputMessage.initial 32).outputBufferStart - 2) 2
        = toBytesLE 2 (((OutputMessage.initial 32).base.info.length - 4) / 8)) ∧
     (((OutputMessage.initial 32).addCryptoHeader true 0xAABBCCDD).outputBufferStart
        = (OutputMessage.initial 32).outputBufferStart - 6 ∧
      ((OutputMessage.initial 32).addCryptoHeader true 0xAABBCCDD).base.info.length
        = (OutputMessage.initial 32).base.info.length + 6 ∧
      ((OutputMessage.initial 32).add_header 4 0xAABBCCDD).base.info.length
        = (OutputMessage.initial 32).base.info.length + 4 ∧
      readBytes ((OutputMessage.initial 32).addCryptoHeader true 0xAABBCCDD).base.buffer
          ((OutputMessage.initial 32).outputBufferStart - 4) 4
        = toBytesLE 4 0xAABBCCDD ∧
      readBytes ((OutputMessage.initial 32).addCryptoHeader true 0xAABBCCDD).base.buffer
          ((OutputMessage.initial 32).outputBufferStart - 6) 2
        = toBytesLE 2 ((((OutputMessage.initial 32).add_header 4 0xAABBCCDD).base.info.length - 4) / 8))) :=
  ⟨by decide, by decide,
   addCryptoHeader_headers (OutputMessage.initial 32) 0xAABBCCDD (by decide) (by decide)⟩

/-- An OutputMessage of capacity 32 whose payload is the 4 bytes of the
PING string, written one byte at a time through the inherited generic
write. -/
def pingMessage : OutputMessage :=
  ((((OutputMessage.initial 32).add 1 0x50).add 1 0x49).add 1 0x4E).add 1 0x47

/-- The PING message finalized with checksum disabled and encryption
disabled: padding first, then the crypto header without a checksum. -/
def pingFrame : OutputMessage :=
  pingMessage.writePaddingAmount.addCryptoHeader false 0

/-- Claim C8: finalizing the 4-byte PING payload with checksum and
encryption disabled yields blockLength 0 in the 2-byte header at offsets
4 and 5, paddingByteCount 3 at offset 6, the PING bytes at offsets 7 to
10 followed by 3 filler bytes, and a padded body of 1 + 3 + 4 = 8 bytes,
a multiple of 8. -/
theorem pingFrame_layout :
    pingMessage.base.info.length = 4 ∧
    pingFrame.outputBufferStart = 4 ∧
    pingFrame.base.buffer.getD 4 0 = 0 ∧
    pingFrame.base.buffer.getD 5 0 = 0 ∧
    pingFrame.base.buffer.getD 6 0 = 3 ∧
    pingFrame.base.buffer.getD 7 0 = 0x50 ∧
    pingFrame.base.buffer.getD 8 0 = 0x49 ∧
    pingFrame.base.buffer.getD 9 0 = 0x4E ∧
    pingFrame.base.buffer.getD 10 0 = 0x47 ∧
    pingFrame.base.buffer.getD 11 0 = 0x33 ∧
    pingFrame.base.buffer.getD 12 0 = 0x33 ∧
    pingFrame.base.buffer.getD 13 0 = 0x33 ∧
    pingFrame.base.info.length = 10 ∧
    (1 + 3 + pingMessage.base.info.length) % 8 = 0 := by
  decide

end Canary
